import Mathlib

/-! # A shallow embedding of `real48.py`

The program decodes the Borland Pascal 6-byte "real48" floating-point
format (layout `S-F-E`: sign bit and 39 mantissa bits in bytes 0-4,
8-bit exponent with bias 129 in byte 5) into IEEE-754 single or double
precision values, and reassembles the 6-byte encoding from a 2-byte and
a 4-byte database integer.

Modelling conventions:
* a Python `bytes` buffer is a `List ℕ`; the fact that its elements are
  bytes appears as the `WF` predicate (length 6, all elements below 256);
* Python's arbitrary-precision `int` is `ℤ`, or `ℕ` where the source
  value is provably non-negative; `x << k` on a non-negative `int` is
  `x <<< k` (that is, `x * 2 ^ k`), and `x % m` on non-negative values
  is `Nat` mod;
* a Python `float` is an IEEE-754 binary64 datum.  On every code path of
  this program each float intermediate is a dyadic rational with at most
  53 significant bits lying far inside the representable range, so float
  arithmetic incurs no rounding and is modelled by exact arithmetic on
  `ℚ`; the sign bit of the datum is carried separately so that the
  signed zeros `0.0` and `-0.0` stay distinguishable;
* a raised exception is `Except.error` / `Option.none`.
-/

/-- An IEEE-754 floating-point datum as produced by `struct.unpack`.
A finite datum carries its exact rational value together with its sign
bit `neg`, so `finite 0 false` is `0.0` and `finite 0 true` is `-0.0`
(for a nonzero value `q` the bit is just `decide (q < 0)`).  `inf` and
`nan` are the non-finite data. -/
inductive PyFloat where
  | finite (q : ℚ) (neg : Bool)
  | inf (neg : Bool)
  | nan
deriving DecidableEq

/-- `struct.unpack('>f', struct.pack('>I', bits))[0]` for `bits < 2 ^ 32`:
interpret a 32-bit pattern as an IEEE-754 single-precision float
(1 sign bit, 8 exponent bits with bias 127, 23 mantissa bits). -/
def unpack_single (bits : ℕ) : PyFloat :=
  let s : ℕ := bits / 2 ^ 31 % 2
  let e : ℕ := bits / 2 ^ 23 % 2 ^ 8
  let m : ℕ := bits % 2 ^ 23
  if e = 255 then (if m = 0 then .inf (s == 1) else .nan)
  else if e = 0 then
    .finite ((if s = 1 then (-1 : ℚ) else 1) * (m : ℚ) * 2 ^ (-149 : ℤ)) (s == 1)
  else
    .finite ((if s = 1 then (-1 : ℚ) else 1) * ((2 ^ 23 + m : ℕ) : ℚ) * 2 ^ ((e : ℤ) - 150))
      (s == 1)

/-- `struct.unpack('>d', struct.pack('>Q', bits))[0]` for `bits < 2 ^ 64`:
interpret a 64-bit pattern as an IEEE-754 double-precision float
(1 sign bit, 11 exponent bits with bias 1023, 52 mantissa bits). -/
def unpack_double (bits : ℕ) : PyFloat :=
  let s : ℕ := bits / 2 ^ 63 % 2
  let e : ℕ := bits / 2 ^ 52 % 2 ^ 11
  let m : ℕ := bits % 2 ^ 52
  if e = 2047 then (if m = 0 then .inf (s == 1) else .nan)
  else if e = 0 then
    .finite ((if s = 1 then (-1 : ℚ) else 1) * (m : ℚ) * 2 ^ (-1074 : ℤ)) (s == 1)
  else
    .finite ((if s = 1 then (-1 : ℚ) else 1) * ((2 ^ 52 + m : ℕ) : ℚ) * 2 ^ ((e : ℤ) - 1075))
      (s == 1)

/-- Big-endian two's-complement encoding of the integer `v` in `width`
bytes, as produced by `struct.pack` with formats `'>h'` (`width = 2`) and
`'>i'` (`width = 4`) on an in-range argument. -/
def pack_be (width : ℕ) (v : ℤ) : List ℕ :=
  (List.range width).map fun i => (v % 2 ^ (8 * width)).toNat / 2 ^ (8 * (width - 1 - i)) % 256

/-- `combine_ints(int2, int4)`: range-check the two integers, then return
`struct.pack('>i', int4) + struct.pack('>h', int2)` (4 big-endian bytes of
`int4` followed by 2 big-endian bytes of `int2`).  The `ValueError` raised
on an out-of-range argument is modelled by `none`. -/
def combine_ints (int2 int4 : ℤ) : Option (List ℕ) :=
  if -32767 ≤ int2 ∧ int2 ≤ 32767 ∧ -2147483648 ≤ int4 ∧ int4 ≤ 2147483647 then
    some (pack_be 4 int4 ++ pack_be 2 int2)
  else
    none

/-- The state of a `real48` instance: the stored byte string and the two
fields `sign` and `exp` cached by `__init__` / `reverse_bytes`. -/
structure real48 where
  byte_str : List ℕ
  sign : ℕ
  exp : ℕ
deriving DecidableEq

/-- `real48.__extract_sign__`: `(r48[0] & 0x80) >> 7`. -/
def real48.extract_sign (r48 : List ℕ) : ℕ := (r48.getD 0 0 &&& 0x80) >>> 7

/-- `real48.__extract_exponent__`: `r48[5]`. -/
def real48.extract_exponent (r48 : List ℕ) : ℕ := r48.getD 5 0

/-- The body of `real48.__init__` after its checks: store the byte string
and cache `sign` and `exp` from it. -/
def real48.mk6 (r48 : List ℕ) : real48 :=
  { byte_str := r48
    sign := real48.extract_sign r48
    exp := real48.extract_exponent r48 }

/-- `real48.__init__`: requires exactly 6 bytes, raising
`FloatingPointError` (modelled as `none`) otherwise.  The `bytes` type
check of the source is a host-representation concern; that all elements
are bytes appears as the `WF` hypothesis of the theorems. -/
def real48.init (r48 : List ℕ) : Option real48 :=
  if r48.length = 6 then some (real48.mk6 r48) else none

/-- `real48.reverse_bytes`: reverse the stored byte string in place
(`self.byte_str[::-1]`) and recompute the cached `sign` and `exp`. -/
def real48.reverse_bytes (r : real48) : real48 :=
  real48.mk6 r.byte_str.reverse

/-- `real48.to_single`: assemble the 23-bit mantissa and the 32-bit
pattern `(sign << 31) + ((exp - 2) << 23) + mant` — computed in `ℤ`
because Python's `self.exp - 2` is negative when `exp = 1` — and
reinterpret it as an IEEE single.  `struct.pack('>I', bits)` raises
`struct.error` (modelled as `Except.error ()`) unless `0 ≤ bits < 2 ^ 32`.
The `exp == 255` branch of the source is a `pass` (the `raise` is
commented out), so it falls through to the general path. -/
def real48.to_single (r : real48) : Except Unit PyFloat :=
  let mant : ℕ := (r.byte_str.getD 0 0 % 0x80) <<< 16 + r.byte_str.getD 1 0 <<< 8 +
    r.byte_str.getD 2 0
  if r.exp = 0 then .ok (.finite 0 false)
  else
    let unbias_exp : ℤ := (r.exp : ℤ) - 2
    let bits : ℤ := (r.sign : ℤ) * 2 ^ 31 + unbias_exp * 2 ^ 23 + (mant : ℤ)
    if bits < 0 ∨ 2 ^ 32 ≤ bits then .error () else .ok (unpack_single bits.toNat)

/-- `real48.to_double`: assemble the 39-bit mantissa and the 64-bit
pattern `(sign << 63) + ((exp + 894) << 52) + (mant << 13)` and
reinterpret it as an IEEE double.  Every quantity is a non-negative
Python `int`, so the arithmetic stays in `ℕ`; `struct.pack('>Q', bits)`
raises `struct.error` unless `bits < 2 ^ 64`.  As in `to_single`, the
`exp == 255` branch is a `pass` and falls through. -/
def real48.to_double (r : real48) : Except Unit PyFloat :=
  let mant : ℕ := (r.byte_str.getD 0 0 % 0x80) <<< 32 + r.byte_str.getD 1 0 <<< 24 +
    r.byte_str.getD 2 0 <<< 16 + r.byte_str.getD 3 0 <<< 8 + r.byte_str.getD 4 0
  if r.exp = 0 then .ok (.finite 0 false)
  else
    let unbias_exp : ℕ := r.exp + 894
    let bits : ℕ := r.sign <<< 63 + unbias_exp <<< 52 + mant <<< 13
    if 2 ^ 64 ≤ bits then .error () else .ok (unpack_double bits)

/-- `real48.value`: direct arithmetic evaluation of the buffer.  On this
code path every Python float operation is exact: each intermediate is a
dyadic rational with at most 40 significant bits, and `2.0 ** exp` with
`-129 ≤ exp ≤ 126` is exactly representable, so the arithmetic is carried
out in `ℚ`.  The sign bit of the result is tracked separately: the
`mant` produced by the `if/else` is non-negative with a clear sign bit,
`mant = -mant` flips the bit (yielding `-0.0` when `mant` is `0.0`), and
the final multiplication by the positive `2.0 ** exp` preserves it. -/
def real48.value (r : real48) : PyFloat :=
  let a0 := r.byte_str.getD 0 0
  let a1 := r.byte_str.getD 1 0
  let a2 := r.byte_str.getD 2 0
  let a3 := r.byte_str.getD 3 0
  let a4 := r.byte_str.getD 4 0
  let a5 := r.byte_str.getD 5 0
  -- sign = int(a0/128): exact division of a byte by 2^7, then truncation
  let sign : ℕ := a0 / 128
  -- exp = a5 - 129
  let exp : ℤ := (a5 : ℤ) - 129
  -- mant = 0.0 when a5 == 0, else 1.0 + 2.0*nested base-256 expansion
  let mant : ℚ :=
    if a5 = 0 then 0
    else 1 + 2 * (((a0 % 128 : ℕ) + ((a1 : ℚ) + ((a2 : ℚ) + ((a3 : ℚ) + (a4 : ℚ) / 256) / 256) / 256) / 256) / 256)
  -- if sign == 1: mant = -mant
  let signed_mant : ℚ := if sign = 1 then -mant else mant
  -- value = 2.0**exp * mant
  .finite (2 ^ exp * signed_mant) (sign == 1)

/-- A well-formed Python `bytes` buffer of length 6: six elements, each
below 256. -/
def WF (l : List ℕ) : Prop := l.length = 6 ∧ ∀ b ∈ l, b < 256

instance : DecidablePred WF := fun l => by unfold WF; infer_instance

/-- The transformation the sign claims quantify over: flip bit 7 of
byte 0 (the real48 sign bit), leaving every other bit unchanged. -/
def flip_sign_bit (l : List ℕ) : List ℕ := l.set 0 (l.getD 0 0 ^^^ 0x80)

/-- The 39-bit real48 mantissa `M` named by the specification: the low
7 bits of byte 0 followed by bytes 1 through 4. -/
def mantissa39 (l : List ℕ) : ℕ :=
  l.getD 0 0 % 128 * 2 ^ 32 + l.getD 1 0 * 2 ^ 24 + l.getD 2 0 * 2 ^ 16 +
    l.getD 3 0 * 2 ^ 8 + l.getD 4 0

/-- The 23-bit single-precision mantissa named by the specification: the
low 7 bits of byte 0 at bit positions 16-22, byte 1 at bits 8-15 and
byte 2 at bits 0-7. -/
def mantissa23 (l : List ℕ) : ℕ :=
  (l.getD 0 0 % 128) <<< 16 + l.getD 1 0 <<< 8 + l.getD 2 0

/-- The value formula stated by the specification for a buffer with a
non-zero exponent byte: `(-1)^sign * 2^(exponent - 129) * (1 + M/2^39)`
with `M` the 39-bit mantissa.  This is the spec-side description that the
source functions are compared against. -/
def spec_formula (l : List ℕ) : ℚ :=
  (-1 : ℚ) ^ real48.extract_sign l * 2 ^ ((l.getD 5 0 : ℤ) - 129) *
    (1 + (mantissa39 l : ℚ) / 2 ^ 39)

/-- The magnitude decoded by `to_single` on its general path from an
exponent byte `b5 ≥ 2` and 23-bit mantissa `m`: the rebiased exponent
field `b5 - 2` is zero exactly when `b5 = 2`, giving a subnormal. -/
def single_mag (b5 m : ℕ) : ℚ :=
  if b5 = 2 then (m : ℚ) * 2 ^ (-149 : ℤ)
  else ((2 ^ 23 + m : ℕ) : ℚ) * 2 ^ ((b5 : ℤ) - 152)

/-- The decoder's cached-field invariant: the buffer is 6 bytes long and
the cached `sign` and `exp` agree with the current byte string (bit 7 of
byte 0, and byte 5). -/
def cache_consistent (r : real48) : Prop :=
  r.byte_str.length = 6 ∧ r.sign = real48.extract_sign r.byte_str ∧
    r.exp = real48.extract_exponent r.byte_str

instance (r : real48) : Decidable (cache_consistent r) := by
  unfold cache_consistent; infer_instance

/-! ## Helper lemmas -/

/-- A well-formed buffer is a literal six-element list of bytes. -/
lemma WF_explode (l : List ℕ) (h : WF l) :
    ∃ b0 b1 b2 b3 b4 b5 : ℕ, l = [b0, b1, b2, b3, b4, b5] ∧
      b0 < 256 ∧ b1 < 256 ∧ b2 < 256 ∧ b3 < 256 ∧ b4 < 256 ∧ b5 < 256 := by
  obtain ⟨hl, hb⟩ := h
  rcases l with _ | ⟨b0, l⟩
  · simp at hl
  rcases l with _ | ⟨b1, l⟩
  · simp at hl
  rcases l with _ | ⟨b2, l⟩
  · simp at hl
  rcases l with _ | ⟨b3, l⟩
  · simp at hl
  rcases l with _ | ⟨b4, l⟩
  · simp at hl
  rcases l with _ | ⟨b5, l⟩
  · simp at hl
  rcases l with _ | ⟨b6, l⟩
  · exact ⟨b0, b1, b2, b3, b4, b5, rfl, hb _ (by simp), hb _ (by simp), hb _ (by simp),
      hb _ (by simp), hb _ (by simp), hb _ (by simp)⟩
  · simp at hl

set_option maxRecDepth 100000 in
/-- On a byte, the sign extraction `(b & 0x80) >> 7` is division by 128. -/
lemma byte_sign_eq_div : ∀ b : ℕ, b < 256 → (b &&& 0x80) >>> 7 = b / 128 := by decide

set_option maxRecDepth 100000 in
/-- Effect of flipping bit 7 of a byte on the pieces the decoder reads. -/
lemma byte_flip_facts : ∀ b : ℕ, b < 256 →
    (b ^^^ 0x80) % 128 = b % 128 ∧ (b ^^^ 0x80) / 128 = 1 - b / 128 ∧ (b ^^^ 0x80) < 256 := by
  decide

/-- Packing three disjoint bit fields of a 32-bit word: `or` is addition. -/
lemma or_fields32 (s e m : ℕ) (he : e < 2 ^ 8) (hm : m < 2 ^ 23) :
    s <<< 31 ||| e <<< 23 ||| m = s * 2 ^ 31 + e * 2 ^ 23 + m := by
  have h1 : s <<< 31 ||| e <<< 23 = 2 ^ 23 * (2 ^ 8 * s + e) := by
    rw [Nat.shiftLeft_eq, Nat.shiftLeft_eq, Nat.mul_comm s, Nat.mul_comm e,
      ← Nat.mul_add_lt_is_or (by omega : (2 : ℕ) ^ 23 * e < 2 ^ 31) s]
    ring
  rw [h1, ← Nat.mul_add_lt_is_or hm (2 ^ 8 * s + e)]
  ring

/-- Packing three disjoint bit fields of a 64-bit word: `or` is addition. -/
lemma or_fields64 (s e m : ℕ) (he : e < 2 ^ 11) (hm : m < 2 ^ 52) :
    s <<< 63 ||| e <<< 52 ||| m = s * 2 ^ 63 + e * 2 ^ 52 + m := by
  have h1 : s <<< 63 ||| e <<< 52 = 2 ^ 52 * (2 ^ 11 * s + e) := by
    rw [Nat.shiftLeft_eq, Nat.shiftLeft_eq, Nat.mul_comm s, Nat.mul_comm e,
      ← Nat.mul_add_lt_is_or (by omega : (2 : ℕ) ^ 52 * e < 2 ^ 63) s]
    ring
  rw [h1, ← Nat.mul_add_lt_is_or hm (2 ^ 11 * s + e)]
  ring

/-- Decoding a 32-bit pattern with a normal (nonzero, non-reserved)
exponent field. -/
lemma unpack_single_normal (s e m : ℕ) (hs : s ≤ 1) (he0 : e ≠ 0) (he : e < 255)
    (hm : m < 2 ^ 23) :
    unpack_single (s * 2 ^ 31 + e * 2 ^ 23 + m) =
      .finite ((if s = 1 then (-1 : ℚ) else 1) * ((2 ^ 23 + m : ℕ) : ℚ) * 2 ^ ((e : ℤ) - 150))
        (s == 1) := by
  have h1 : (s * 2 ^ 31 + e * 2 ^ 23 + m) / 2 ^ 31 % 2 = s := by omega
  have h2 : (s * 2 ^ 31 + e * 2 ^ 23 + m) / 2 ^ 23 % 2 ^ 8 = e := by omega
  have h3 : (s * 2 ^ 31 + e * 2 ^ 23 + m) % 2 ^ 23 = m := by omega
  simp only [unpack_single, h1, h2, h3]
  rw [if_neg (by omega), if_neg he0]

/-- Decoding a 32-bit pattern with a zero exponent field (a subnormal). -/
lemma unpack_single_subnormal (s m : ℕ) (hs : s ≤ 1) (hm : m < 2 ^ 23) :
    unpack_single (s * 2 ^ 31 + m) =
      .finite ((if s = 1 then (-1 : ℚ) else 1) * (m : ℚ) * 2 ^ (-149 : ℤ)) (s == 1) := by
  have h1 : (s * 2 ^ 31 + m) / 2 ^ 31 % 2 = s := by omega
  have h2 : (s * 2 ^ 31 + m) / 2 ^ 23 % 2 ^ 8 = 0 := by omega
  have h3 : (s * 2 ^ 31 + m) % 2 ^ 23 = m := by omega
  simp only [unpack_single, h1, h2, h3]
  simp

/-- Decoding a 64-bit pattern with a normal (nonzero, non-reserved)
exponent field. -/
lemma unpack_double_normal (s e m : ℕ) (hs : s ≤ 1) (he0 : e ≠ 0) (he : e < 2047)
    (hm : m < 2 ^ 52) :
    unpack_double (s * 2 ^ 63 + e * 2 ^ 52 + m) =
      .finite ((if s = 1 then (-1 : ℚ) else 1) * ((2 ^ 52 + m : ℕ) : ℚ) * 2 ^ ((e : ℤ) - 1075))
        (s == 1) := by
  have h1 : (s * 2 ^ 63 + e * 2 ^ 52 + m) / 2 ^ 63 % 2 = s := by omega
  have h2 : (s * 2 ^ 63 + e * 2 ^ 52 + m) / 2 ^ 52 % 2 ^ 11 = e := by omega
  have h3 : (s * 2 ^ 63 + e * 2 ^ 52 + m) % 2 ^ 52 = m := by omega
  simp only [unpack_double, h1, h2, h3]
  rw [if_neg (by omega), if_neg he0]

/-- The rational identity behind the `to_double`/`value`/spec agreement:
the double bit-pattern magnitude with rebiased exponent `e + 894` and
mantissa `M <<< 13` equals `(-1)^s * 2^(e-129) * (1 + M/2^39)`. -/
lemma qval_double (s M e : ℕ) (hs : s ≤ 1) :
    (if s = 1 then (-1 : ℚ) else 1) * ((2 ^ 52 + M * 2 ^ 13 : ℕ) : ℚ) *
        2 ^ (((e + 894 : ℕ) : ℤ) - 1075)
      = (-1 : ℚ) ^ s * 2 ^ ((e : ℤ) - 129) * (1 + (M : ℚ) / 2 ^ 39) := by
  have h2 : (2 : ℚ) ≠ 0 := by norm_num
  have hexp : ((e + 894 : ℕ) : ℤ) - 1075 = (e : ℤ) - 181 := by push_cast; ring
  have hexp2 : (e : ℤ) - 129 = ((e : ℤ) - 181) + 52 := by ring
  rw [hexp, hexp2, zpow_add₀ h2, show (52 : ℤ) = ((52 : ℕ) : ℤ) from rfl, zpow_natCast]
  interval_cases s <;> push_cast <;> field_simp <;> ring

/-- `to_double` on a well-formed buffer with a non-zero exponent byte
reaches the general path and decodes the assembled 64-bit pattern. -/
lemma to_double_general (b0 b1 b2 b3 b4 b5 : ℕ)
    (h0 : b0 < 256) (h1 : b1 < 256) (h2 : b2 < 256) (h3 : b3 < 256) (h4 : b4 < 256)
    (h5 : b5 < 256) (hb5 : b5 ≠ 0) :
    real48.to_double (real48.mk6 [b0, b1, b2, b3, b4, b5]) =
      .ok (unpack_double (b0 / 128 * 2 ^ 63 + (b5 + 894) * 2 ^ 52 +
        ((b0 % 128) * 2 ^ 32 + b1 * 2 ^ 24 + b2 * 2 ^ 16 + b3 * 2 ^ 8 + b4) * 2 ^ 13)) := by
  have hsign : (real48.mk6 [b0, b1, b2, b3, b4, b5]).sign = b0 / 128 := byte_sign_eq_div b0 h0
  have hexp : (real48.mk6 [b0, b1, b2, b3, b4, b5]).exp = b5 := rfl
  have hbytes : (real48.mk6 [b0, b1, b2, b3, b4, b5]).byte_str = [b0, b1, b2, b3, b4, b5] := rfl
  simp only [real48.to_double, hsign, hexp, hbytes, List.getD_cons_zero, List.getD_cons_succ,
    Nat.shiftLeft_eq]
  rw [if_neg hb5, if_neg (by omega)]

/-- `to_double` on a well-formed buffer with a non-zero exponent byte
returns the finite value given by the specification formula. -/
lemma to_double_spec (b0 b1 b2 b3 b4 b5 : ℕ)
    (h0 : b0 < 256) (h1 : b1 < 256) (h2 : b2 < 256) (h3 : b3 < 256) (h4 : b4 < 256)
    (h5 : b5 < 256) (hb5 : b5 ≠ 0) :
    real48.to_double (real48.mk6 [b0, b1, b2, b3, b4, b5]) =
      .ok (.finite (spec_formula [b0, b1, b2, b3, b4, b5]) (b0 / 128 == 1)) := by
  rw [to_double_general b0 b1 b2 b3 b4 b5 h0 h1 h2 h3 h4 h5 hb5,
    unpack_double_normal (b0 / 128) (b5 + 894)
      (((b0 % 128) * 2 ^ 32 + b1 * 2 ^ 24 + b2 * 2 ^ 16 + b3 * 2 ^ 8 + b4) * 2 ^ 13)
      (by omega) (by omega) (by omega) (by omega),
    qval_double (b0 / 128) _ b5 (by omega)]
  unfold spec_formula mantissa39 real48.extract_sign
  simp only [List.getD_cons_zero, List.getD_cons_succ]
  rw [byte_sign_eq_div b0 h0]

/-- `value` on a well-formed buffer with a non-zero exponent byte
returns the finite value given by the specification formula (the nested
base-256 expansion evaluates to `M / 2^40`). -/
lemma value_spec (b0 b1 b2 b3 b4 b5 : ℕ) (h0 : b0 < 256) (hb5 : b5 ≠ 0) :
    real48.value (real48.mk6 [b0, b1, b2, b3, b4, b5]) =
      .finite (spec_formula [b0, b1, b2, b3, b4, b5]) (b0 / 128 == 1) := by
  have hbytes : (real48.mk6 [b0, b1, b2, b3, b4, b5]).byte_str = [b0, b1, b2, b3, b4, b5] := rfl
  simp only [real48.value, hbytes, List.getD_cons_zero, List.getD_cons_succ]
  rw [if_neg hb5]
  unfold spec_formula mantissa39 real48.extract_sign
  simp only [List.getD_cons_zero, List.getD_cons_succ]
  rw [byte_sign_eq_div b0 h0]
  rcases Nat.lt_or_ge b0 128 with hlt | hge
  · have hdiv : b0 / 128 = 0 := by omega
    rw [hdiv, if_neg (by omega : ¬ (0 : ℕ) = 1)]
    congr 1
    push_cast
    ring
  · have hdiv : b0 / 128 = 1 := by omega
    rw [hdiv, if_pos rfl]
    congr 1
    push_cast
    ring

/-- `to_single` on a well-formed buffer with exponent byte at least 2
passes the `struct.pack` range check and decodes the assembled 32-bit
pattern. -/
lemma to_single_general (b0 b1 b2 b3 b4 b5 : ℕ)
    (h0 : b0 < 256) (h1 : b1 < 256) (h2 : b2 < 256) (hb5 : 2 ≤ b5) (h5 : b5 < 256) :
    real48.to_single (real48.mk6 [b0, b1, b2, b3, b4, b5]) =
      .ok (unpack_single (b0 / 128 * 2 ^ 31 + (b5 - 2) * 2 ^ 23 +
        ((b0 % 128) * 2 ^ 16 + b1 * 2 ^ 8 + b2))) := by
  have hsign : (real48.mk6 [b0, b1, b2, b3, b4, b5]).sign = b0 / 128 := byte_sign_eq_div b0 h0
  have hexp : (real48.mk6 [b0, b1, b2, b3, b4, b5]).exp = b5 := rfl
  have hbytes : (real48.mk6 [b0, b1, b2, b3, b4, b5]).byte_str = [b0, b1, b2, b3, b4, b5] := rfl
  simp only [real48.to_single, hsign, hexp, hbytes, List.getD_cons_zero, List.getD_cons_succ,
    Nat.shiftLeft_eq]
  rw [if_neg (by omega : ¬ b5 = 0), if_neg (by omega)]
  congr 2
  omega

/-- `to_single` on a well-formed buffer with exponent byte at least 2
returns a finite value: `(-1)^sign` times the decoded magnitude. -/
lemma to_single_val (b0 b1 b2 b3 b4 b5 : ℕ)
    (h0 : b0 < 256) (h1 : b1 < 256) (h2 : b2 < 256) (hb5 : 2 ≤ b5) (h5 : b5 < 256) :
    real48.to_single (real48.mk6 [b0, b1, b2, b3, b4, b5]) =
      .ok (.finite ((if b0 / 128 = 1 then (-1 : ℚ) else 1) *
        single_mag b5 ((b0 % 128) * 2 ^ 16 + b1 * 2 ^ 8 + b2)) (b0 / 128 == 1)) := by
  rw [to_single_general b0 b1 b2 b3 b4 b5 h0 h1 h2 hb5 h5]
  rcases Nat.eq_or_lt_of_le hb5 with hb2 | hb3
  · subst hb2
    rw [show b0 / 128 * 2 ^ 31 + (2 - 2) * 2 ^ 23 + ((b0 % 128) * 2 ^ 16 + b1 * 2 ^ 8 + b2)
        = b0 / 128 * 2 ^ 31 + ((b0 % 128) * 2 ^ 16 + b1 * 2 ^ 8 + b2) from by omega,
      unpack_single_subnormal (b0 / 128) _ (by omega) (by omega),
      single_mag, if_pos rfl]
    congr 2
    rw [mul_assoc]
  · rw [unpack_single_normal (b0 / 128) (b5 - 2) _ (by omega) (by omega) (by omega) (by omega),
      single_mag, if_neg (by omega : ¬ b5 = 2),
      show (((b5 - 2 : ℕ) : ℤ) - 150) = ((b5 : ℤ) - 152) from by omega]
    congr 2
    ring

/-- Flipping the sign bit of an exploded well-formed buffer. -/
lemma flip_sign_bit_cons (b0 b1 b2 b3 b4 b5 : ℕ) :
    flip_sign_bit [b0, b1, b2, b3, b4, b5] = [b0 ^^^ 0x80, b1, b2, b3, b4, b5] := rfl

/-- The specification formula is negated by a sign-bit flip. -/
lemma spec_formula_flip (b0 b1 b2 b3 b4 b5 : ℕ) (h0 : b0 < 256) :
    spec_formula [b0 ^^^ 0x80, b1, b2, b3, b4, b5] = -spec_formula [b0, b1, b2, b3, b4, b5] := by
  obtain ⟨hmod, hdiv, hlt⟩ := byte_flip_facts b0 h0
  unfold spec_formula mantissa39 real48.extract_sign
  simp only [List.getD_cons_zero, List.getD_cons_succ]
  rw [byte_sign_eq_div b0 h0, byte_sign_eq_div _ hlt, hmod, hdiv]
  rcases Nat.lt_or_ge b0 128 with hb | hb
  · rw [show b0 / 128 = 0 from by omega]
    norm_num
  · rw [show b0 / 128 = 1 from by omega]
    norm_num

/-- A successful `init` stores the given 6-byte buffer with freshly
computed cached fields. -/
lemma init_eq_mk6 (l : List ℕ) (r : real48) (h : real48.init l = some r) :
    r = real48.mk6 l ∧ l.length = 6 := by
  unfold real48.init at h
  by_cases hl : l.length = 6
  · rw [if_pos hl] at h
    exact ⟨(Option.some.inj h).symm, hl⟩
  · rw [if_neg hl] at h
    cases h

/-- `mk6` always produces consistent cached fields. -/
lemma cache_consistent_mk6 (l : List ℕ) (hl : l.length = 6) :
    cache_consistent (real48.mk6 l) :=
  ⟨hl, rfl, rfl⟩

/-- `reverse_bytes` recomputes the cached fields, so it preserves the
invariant of any 6-byte decoder state. -/
lemma reverse_bytes_consistent (r : real48) (h : r.byte_str.length = 6) :
    cache_consistent r.reverse_bytes :=
  cache_consistent_mk6 _ (by simpa using h)

/-! ## Claims -/

/-- **C1**: for every 6-byte buffer whose exponent byte (byte 5) is
neither 0 nor 255, `to_double()` and `value()` agree — both return the
finite value `(-1)^sign * 2^(exponent-129) * (1 + M/2^39)` given by
`spec_formula`, with the same sign bit.  The agreement is exact, so in
particular the relative error is at most `1e-9` (last conjunct). -/
theorem C1_to_double_value_agree (l : List ℕ) (hwf : WF l)
    (h0 : l.getD 5 0 ≠ 0) (h255 : l.getD 5 0 ≠ 255) :
    ∃ q : ℚ, ∃ b : Bool,
      real48.to_double (real48.mk6 l) = .ok (.finite q b) ∧
      real48.value (real48.mk6 l) = .finite q b ∧
      q = spec_formula l ∧ |q - q| ≤ 1 / 1000000000 * |q| := by
  obtain ⟨b0, b1, b2, b3, b4, b5, rfl, hb0, hb1, hb2, hb3, hb4, hb5⟩ := WF_explode l hwf
  have h5 : b5 ≠ 0 := h0
  exact ⟨spec_formula [b0, b1, b2, b3, b4, b5], b0 / 128 == 1,
    to_double_spec b0 b1 b2 b3 b4 b5 hb0 hb1 hb2 hb3 hb4 hb5 h5,
    value_spec b0 b1 b2 b3 b4 b5 hb0 h5, rfl,
    by rw [sub_self, abs_zero]; positivity⟩

/-- **C1 witness**: the buffer `[0,0,0,0,0,0x81]` (the real48 encoding of
`1.0`) satisfies the hypotheses, and the theorem applies to it. -/
theorem C1_witness :
    (WF [0, 0, 0, 0, 0, 129] ∧ ([0, 0, 0, 0, 0, 129] : List ℕ).getD 5 0 ≠ 0 ∧
      ([0, 0, 0, 0, 0, 129] : List ℕ).getD 5 0 ≠ 255) ∧
    (∃ q : ℚ, ∃ b : Bool,
      real48.to_double (real48.mk6 [0, 0, 0, 0, 0, 129]) = .ok (.finite q b) ∧
      real48.value (real48.mk6 [0, 0, 0, 0, 0, 129]) = .finite q b ∧
      q = spec_formula [0, 0, 0, 0, 0, 129] ∧ |q - q| ≤ 1 / 1000000000 * |q|) :=
  ⟨⟨by decide, by decide, by decide⟩,
    C1_to_double_value_agree [0, 0, 0, 0, 0, 129] (by decide) (by decide) (by decide)⟩

/-- **C4**: `combine` fails (produces no buffer) exactly when `int2` is
outside `[-32767, 32767]` or `int4` is outside
`[-2147483648, 2147483647]`; in particular `combine(-32768, 0)` fails and
`combine(32767, 2147483647)` succeeds. -/
theorem C4_combine_range :
    (∀ int2 int4 : ℤ, combine_ints int2 int4 = none ↔
      (int2 < -32767 ∨ 32767 < int2 ∨ int4 < -2147483648 ∨ 2147483647 < int4)) ∧
    combine_ints (-32768) 0 = none ∧ (combine_ints 32767 2147483647).isSome := by
  refine ⟨fun int2 int4 => ?_, by decide, by decide⟩
  unfold combine_ints
  by_cases hc : -32767 ≤ int2 ∧ int2 ≤ 32767 ∧ -2147483648 ≤ int4 ∧ int4 ≤ 2147483647
  · rw [if_pos hc]
    simp only [reduceCtorEq, false_iff]
    omega
  · rw [if_neg hc]
    simp only [true_iff]
    omega

/-- **C5**: for every in-range pair, `combine` returns the 4 big-endian
two's-complement bytes of `int4` followed by the 2 big-endian bytes of
`int2` — 6 bytes in total — and on `(1000, 123456)` it yields the
big-endian bytes of 123456 then those of 1000. -/
theorem C5_combine_layout :
    (∀ int2 int4 : ℤ, -32767 ≤ int2 → int2 ≤ 32767 →
      -2147483648 ≤ int4 → int4 ≤ 2147483647 →
      combine_ints int2 int4 = some (pack_be 4 int4 ++ pack_be 2 int2) ∧
      (pack_be 4 int4 ++ pack_be 2 int2).length = 6) ∧
    combine_ints 1000 123456 = some [0x00, 0x01, 0xE2, 0x40, 0x03, 0xE8] := by
  refine ⟨fun int2 int4 ha hb hc hd => ⟨?_, ?_⟩, by decide⟩
  · unfold combine_ints
    rw [if_pos ⟨ha, hb, hc, hd⟩]
  · simp [pack_be]

/-- **C5 witness**: the theorem applied at `(1000, 123456)`. -/
theorem C5_witness :
    ((-32767 : ℤ) ≤ 1000 ∧ (1000 : ℤ) ≤ 32767 ∧ (-2147483648 : ℤ) ≤ 123456 ∧
      (123456 : ℤ) ≤ 2147483647) ∧
    (combine_ints 1000 123456 = some (pack_be 4 123456 ++ pack_be 2 1000) ∧
      (pack_be 4 123456 ++ pack_be 2 1000).length = 6) :=
  ⟨⟨by decide, by decide, by decide, by decide⟩,
    C5_combine_layout.1 1000 123456 (by decide) (by decide) (by decide) (by decide)⟩

/-- **C6**: for every decoder produced by `__init__`, two successive
`reverse_byte_order()` calls restore the entire state — the buffer and
the cached `sign`/`exp` fields (the states are equal as structures). -/
theorem C6_reverse_involutive (l : List ℕ) (r : real48) (h : real48.init l = some r) :
    r.reverse_bytes.reverse_bytes = r := by
  obtain ⟨rfl, _⟩ := init_eq_mk6 l r h
  show real48.mk6 (l.reverse.reverse) = real48.mk6 l
  rw [List.reverse_reverse]

/-- **C6 witness**: the theorem applied to the decoder on `[1,2,3,4,5,129]`. -/
theorem C6_witness :
    real48.init [1, 2, 3, 4, 5, 129] = some (real48.mk6 [1, 2, 3, 4, 5, 129]) ∧
    (real48.mk6 [1, 2, 3, 4, 5, 129]).reverse_bytes.reverse_bytes =
      real48.mk6 [1, 2, 3, 4, 5, 129] :=
  ⟨by decide, C6_reverse_involutive [1, 2, 3, 4, 5, 129] _ (by decide)⟩

/-- **C9**: after a successful construction and any number of
`reverse_byte_order()` calls, the cached fields stay consistent with the
buffer: `sign` is bit 7 of the current byte 0, `exp` is the current
byte 5, and the length stays 6.  The three conversion methods and the
field reads are modelled as pure functions of the state — they return
values without touching it — so they cannot break the invariant. -/
theorem C9_invariant (l : List ℕ) (r : real48) (h : real48.init l = some r) (n : ℕ) :
    cache_consistent (real48.reverse_bytes^[n] r) := by
  obtain ⟨rfl, hl⟩ := init_eq_mk6 l r h
  induction n with
  | zero => exact cache_consistent_mk6 l hl
  | succ n ih =>
    rw [Function.iterate_succ_apply']
    exact reverse_bytes_consistent _ ih.1

/-- **C9 witness**: the theorem applied to the decoder on `[1,2,3,4,5,6]`
after three reversals. -/
theorem C9_witness :
    real48.init [1, 2, 3, 4, 5, 6] = some (real48.mk6 [1, 2, 3, 4, 5, 6]) ∧
    cache_consistent (real48.reverse_bytes^[3] (real48.mk6 [1, 2, 3, 4, 5, 6])) :=
  ⟨by decide, C9_invariant [1, 2, 3, 4, 5, 6] _ (by decide) 3⟩

/-- **C10**: on every 6-byte buffer `to_double()` is total and returns a
finite value — never an infinity or a NaN, and never an exception: the
rebiased exponent field is at most `255 + 894 = 1149 < 2047`.  For
exponent byte 0 the returned value is positive zero. -/
theorem C10_to_double_finite (l : List ℕ) (hwf : WF l) :
    ∃ q : ℚ, ∃ b : Bool,
      real48.to_double (real48.mk6 l) = .ok (.finite q b) ∧
      (l.getD 5 0 = 0 → q = 0 ∧ b = false) := by
  obtain ⟨b0, b1, b2, b3, b4, b5, rfl, hb0, hb1, hb2, hb3, hb4, hb5⟩ := WF_explode l hwf
  by_cases h5 : b5 = 0
  · refine ⟨0, false, ?_, fun _ => ⟨rfl, rfl⟩⟩
    have hexp : (real48.mk6 [b0, b1, b2, b3, b4, b5]).exp = b5 := rfl
    simp only [real48.to_double, hexp]
    rw [if_pos h5]
  · exact ⟨spec_formula [b0, b1, b2, b3, b4, b5], b0 / 128 == 1,
      to_double_spec b0 b1 b2 b3 b4 b5 hb0 hb1 hb2 hb3 hb4 hb5 h5,
      fun h => absurd h h5⟩

/-- **C10 witness**: the theorem applied to the all-ones buffer
`[255,255,255,255,255,255]`. -/
theorem C10_witness :
    WF [255, 255, 255, 255, 255, 255] ∧
    (∃ q : ℚ, ∃ b : Bool,
      real48.to_double (real48.mk6 [255, 255, 255, 255, 255, 255]) = .ok (.finite q b) ∧
      (([255, 255, 255, 255, 255, 255] : List ℕ).getD 5 0 = 0 → q = 0 ∧ b = false)) :=
  ⟨by decide, C10_to_double_finite [255, 255, 255, 255, 255, 255] (by decide)⟩

/-- **C2 counterexample**: on the buffer `[0x80,0,0,0,0,0]` (exponent
byte 0, sign bit set) `value()` does not return positive `0.0`: the
source negates the zero mantissa (`mant = -0.0`) and
`2.0**(-129) * (-0.0)` is `-0.0`, a zero whose IEEE sign bit is set —
so a negative zero is emitted, contradicting the claim. -/
theorem C2_counterexample :
    real48.value (real48.mk6 [128, 0, 0, 0, 0, 0]) = .finite 0 true := by
  have hbytes : (real48.mk6 [128, 0, 0, 0, 0, 0]).byte_str = [128, 0, 0, 0, 0, 0] := rfl
  simp only [real48.value, hbytes, List.getD_cons_zero, List.getD_cons_succ]
  norm_num

/-- **C2 amended**: for every 6-byte buffer with exponent byte 0,
`to_single()` and `to_double()` return positive `0.0` regardless of the
sign and mantissa bits, and `value()` returns a value numerically equal
to `0.0` whose IEEE sign bit equals the buffer's sign bit (negative zero
exactly when the sign bit is set). -/
theorem C2_zero_amended (l : List ℕ) (hwf : WF l) (h5 : l.getD 5 0 = 0) :
    real48.to_single (real48.mk6 l) = .ok (.finite 0 false) ∧
    real48.to_double (real48.mk6 l) = .ok (.finite 0 false) ∧
    real48.value (real48.mk6 l) = .finite 0 (real48.extract_sign l == 1) := by
  obtain ⟨b0, b1, b2, b3, b4, b5, rfl, hb0, hb1, hb2, hb3, hb4, hb5⟩ := WF_explode l hwf
  have h5' : b5 = 0 := h5
  subst h5'
  have hexp : (real48.mk6 [b0, b1, b2, b3, b4, 0]).exp = 0 := rfl
  have hbytes : (real48.mk6 [b0, b1, b2, b3, b4, 0]).byte_str = [b0, b1, b2, b3, b4, 0] := rfl
  refine ⟨?_, ?_, ?_⟩
  · simp only [real48.to_single, hexp]
    simp
  · simp only [real48.to_double, hexp]
    simp
  · simp only [real48.value, hbytes, List.getD_cons_zero, List.getD_cons_succ]
    unfold real48.extract_sign
    simp only [List.getD_cons_zero]
    rw [byte_sign_eq_div b0 hb0]
    rcases Nat.lt_or_ge b0 128 with h | h
    · rw [show b0 / 128 = 0 from by omega, if_neg (by omega : ¬ (0 : ℕ) = 1)]
      norm_num
    · rw [show b0 / 128 = 1 from by omega, if_pos rfl]
      norm_num

/-- **C2 amended witness**: the theorem applied to `[0x80,1,2,3,4,0]`. -/
theorem C2_witness :
    (WF [128, 1, 2, 3, 4, 0] ∧ ([128, 1, 2, 3, 4, 0] : List ℕ).getD 5 0 = 0) ∧
    (real48.to_single (real48.mk6 [128, 1, 2, 3, 4, 0]) = .ok (.finite 0 false) ∧
      real48.to_double (real48.mk6 [128, 1, 2, 3, 4, 0]) = .ok (.finite 0 false) ∧
      real48.value (real48.mk6 [128, 1, 2, 3, 4, 0]) =
        .finite 0 (real48.extract_sign [128, 1, 2, 3, 4, 0] == 1)) :=
  ⟨⟨by decide, by decide⟩, C2_zero_amended [128, 1, 2, 3, 4, 0] (by decide) (by decide)⟩

/-- **C3 counterexample**: the buffer `[0,0,0,0,0,1]` has a non-zero
exponent byte, but `to_single()` returns no float at all: the assembled
pattern `0 + (1 - 2) * 2^23 + 0 = -2^23` is negative, so
`struct.pack('>I', ...)` raises `struct.error`. -/
theorem C3_counterexample :
    real48.to_single (real48.mk6 [0, 0, 0, 0, 0, 1]) = .error () := rfl

/-- **C3 amended**: for every 6-byte buffer whose exponent byte is **at
least 2**, `to_single()` returns the IEEE-754 single whose 32-bit
big-endian pattern is `(sign << 31) | ((exponent - 2) << 23) | mantissa`,
where the 23-bit mantissa is the low 7 bits of byte 0 at bits 16-22,
byte 1 at bits 8-15 and byte 2 at bits 0-7.  (Exponent byte 1 must be
excluded: there the pattern is negative and `struct.pack` raises when
the sign bit is clear.) -/
theorem C3_single_pattern_amended (l : List ℕ) (hwf : WF l) (h2 : 2 ≤ l.getD 5 0) :
    real48.to_single (real48.mk6 l) =
      .ok (unpack_single
        (real48.extract_sign l <<< 31 ||| (l.getD 5 0 - 2) <<< 23 ||| mantissa23 l)) := by
  obtain ⟨b0, b1, b2, b3, b4, b5, rfl, hb0, hb1, hb2, hb3, hb4, hb5⟩ := WF_explode l hwf
  have h2' : 2 ≤ b5 := h2
  rw [to_single_general b0 b1 b2 b3 b4 b5 hb0 hb1 hb2 h2' hb5]
  congr 2
  unfold real48.extract_sign mantissa23
  simp only [List.getD_cons_zero, List.getD_cons_succ]
  rw [byte_sign_eq_div b0 hb0, Nat.shiftLeft_eq _ 16, Nat.shiftLeft_eq _ 8,
    or_fields32 (b0 / 128) (b5 - 2) _ (by omega) (by omega)]

/-- **C3 amended witness**: the theorem applied to `[1,2,3,4,5,0x81]`. -/
theorem C3_witness :
    (WF [1, 2, 3, 4, 5, 129] ∧ 2 ≤ ([1, 2, 3, 4, 5, 129] : List ℕ).getD 5 0) ∧
    real48.to_single (real48.mk6 [1, 2, 3, 4, 5, 129]) =
      .ok (unpack_single (real48.extract_sign [1, 2, 3, 4, 5, 129] <<< 31 |||
        (([1, 2, 3, 4, 5, 129] : List ℕ).getD 5 0 - 2) <<< 23 |||
        mantissa23 [1, 2, 3, 4, 5, 129])) :=
  ⟨⟨by decide, by decide⟩, C3_single_pattern_amended [1, 2, 3, 4, 5, 129] (by decide) (by decide)⟩

/-- **C7**: with exponent byte 255 both bit-level conversions take no
corrective action: they do not raise, they fall through to the general
path — assembling the rebiased exponent fields `253` and `1149` — and
they return finite floats, those fields being strictly below the
reserved 255 (single) and 2047 (double). -/
theorem C7_exp255_passthrough (l : List ℕ) (hwf : WF l) (h255 : l.getD 5 0 = 255) :
    real48.to_single (real48.mk6 l) =
      .ok (unpack_single (real48.extract_sign l <<< 31 ||| 253 <<< 23 ||| mantissa23 l)) ∧
    real48.to_double (real48.mk6 l) =
      .ok (unpack_double
        (real48.extract_sign l <<< 63 ||| 1149 <<< 52 ||| mantissa39 l <<< 13)) ∧
    (∃ q : ℚ, ∃ b : Bool, real48.to_single (real48.mk6 l) = .ok (.finite q b)) ∧
    (∃ q : ℚ, ∃ b : Bool, real48.to_double (real48.mk6 l) = .ok (.finite q b)) := by
  obtain ⟨b0, b1, b2, b3, b4, b5, rfl, hb0, hb1, hb2, hb3, hb4, hb5⟩ := WF_explode l hwf
  have h5 : b5 = 255 := h255
  subst h5
  refine ⟨?_, ?_, ?_, ?_⟩
  · rw [to_single_general b0 b1 b2 b3 b4 255 hb0 hb1 hb2 (by omega) (by omega)]
    congr 2
    unfold real48.extract_sign mantissa23
    simp only [List.getD_cons_zero, List.getD_cons_succ]
    rw [byte_sign_eq_div b0 hb0, Nat.shiftLeft_eq _ 16, Nat.shiftLeft_eq _ 8,
      or_fields32 (b0 / 128) 253 _ (by omega) (by omega)]
  · rw [to_double_general b0 b1 b2 b3 b4 255 hb0 hb1 hb2 hb3 hb4 (by omega) (by omega)]
    congr 2
    unfold real48.extract_sign mantissa39
    simp only [List.getD_cons_zero, List.getD_cons_succ]
    rw [byte_sign_eq_div b0 hb0, Nat.shiftLeft_eq _ 13,
      or_fields64 (b0 / 128) 1149 _ (by omega) (by omega)]
  · exact ⟨_, _, to_single_val b0 b1 b2 b3 b4 255 hb0 hb1 hb2 (by omega) (by omega)⟩
  · exact ⟨_, _, to_double_spec b0 b1 b2 b3 b4 255 hb0 hb1 hb2 hb3 hb4 (by omega) (by omega)⟩

/-- **C7 witness**: the theorem applied to `[0x12,0x34,0x56,0x78,0x9A,0xFF]`. -/
theorem C7_witness :
    (WF [18, 52, 86, 120, 154, 255] ∧ ([18, 52, 86, 120, 154, 255] : List ℕ).getD 5 0 = 255) ∧
    (real48.to_single (real48.mk6 [18, 52, 86, 120, 154, 255]) =
      .ok (unpack_single (real48.extract_sign [18, 52, 86, 120, 154, 255] <<< 31 |||
        253 <<< 23 ||| mantissa23 [18, 52, 86, 120, 154, 255])) ∧
    real48.to_double (real48.mk6 [18, 52, 86, 120, 154, 255]) =
      .ok (unpack_double (real48.extract_sign [18, 52, 86, 120, 154, 255] <<< 63 |||
        1149 <<< 52 ||| mantissa39 [18, 52, 86, 120, 154, 255] <<< 13)) ∧
    (∃ q : ℚ, ∃ b : Bool,
      real48.to_single (real48.mk6 [18, 52, 86, 120, 154, 255]) = .ok (.finite q b)) ∧
    (∃ q : ℚ, ∃ b : Bool,
      real48.to_double (real48.mk6 [18, 52, 86, 120, 154, 255]) = .ok (.finite q b))) :=
  ⟨⟨by decide, by decide⟩,
    C7_exp255_passthrough [18, 52, 86, 120, 154, 255] (by decide) (by decide)⟩

/-- **C8 counterexample**: the buffer `[1,0,0,0,0,1]` has exponent byte 1
(neither 0 nor 255), yet flipping the sign bit cannot negate
`to_single()`: on the original buffer `to_single()` raises
`struct.error` (the packed pattern is negative) and returns no float,
and on the flipped buffer it returns NaN (the pattern lands in the
reserved exponent-255 range). -/
theorem C8_counterexample :
    real48.to_single (real48.mk6 [1, 0, 0, 0, 0, 1]) = .error () ∧
    real48.to_single (real48.mk6 (flip_sign_bit [1, 0, 0, 0, 0, 1])) = .ok PyFloat.nan :=
  ⟨rfl, rfl⟩

/-- **C8 amended**: for every 6-byte buffer whose exponent byte is
neither 0 nor 255, flipping only the sign bit (bit 7 of byte 0) negates
the result of `to_double()` and of `value()` (the value is negated and
the sign bit flipped); the same holds for `to_single()` provided the
exponent byte is also not 1 — for exponent byte 1 `to_single` raises or
returns non-finite data, so no negation equation can hold there. -/
theorem C8_sign_flip_amended (l : List ℕ) (hwf : WF l)
    (h0 : l.getD 5 0 ≠ 0) (h255 : l.getD 5 0 ≠ 255) :
    (∃ q : ℚ, ∃ b : Bool,
      real48.to_double (real48.mk6 l) = .ok (.finite q b) ∧
      real48.to_double (real48.mk6 (flip_sign_bit l)) = .ok (.finite (-q) (!b))) ∧
    (∃ q : ℚ, ∃ b : Bool,
      real48.value (real48.mk6 l) = .finite q b ∧
      real48.value (real48.mk6 (flip_sign_bit l)) = .finite (-q) (!b)) ∧
    (l.getD 5 0 ≠ 1 → ∃ q : ℚ, ∃ b : Bool,
      real48.to_single (real48.mk6 l) = .ok (.finite q b) ∧
      real48.to_single (real48.mk6 (flip_sign_bit l)) = .ok (.finite (-q) (!b))) := by
  obtain ⟨b0, b1, b2, b3, b4, b5, rfl, hb0, hb1, hb2, hb3, hb4, hb5⟩ := WF_explode l hwf
  have h5 : b5 ≠ 0 := h0
  obtain ⟨hmod, hdiv, hlt⟩ := byte_flip_facts b0 hb0
  rw [flip_sign_bit_cons]
  have hbool : ((b0 ^^^ 0x80) / 128 == 1) = !(b0 / 128 == 1) := by
    rw [hdiv]
    rcases Nat.lt_or_ge b0 128 with h | h
    · rw [show b0 / 128 = 0 from by omega]
      decide
    · rw [show b0 / 128 = 1 from by omega]
      decide
  refine ⟨?_, ?_, ?_⟩
  · refine ⟨spec_formula [b0, b1, b2, b3, b4, b5], b0 / 128 == 1,
      to_double_spec b0 b1 b2 b3 b4 b5 hb0 hb1 hb2 hb3 hb4 hb5 h5, ?_⟩
    rw [to_double_spec (b0 ^^^ 0x80) b1 b2 b3 b4 b5 hlt hb1 hb2 hb3 hb4 hb5 h5,
      spec_formula_flip b0 b1 b2 b3 b4 b5 hb0, hbool]
  · refine ⟨spec_formula [b0, b1, b2, b3, b4, b5], b0 / 128 == 1,
      value_spec b0 b1 b2 b3 b4 b5 hb0 h5, ?_⟩
    rw [value_spec (b0 ^^^ 0x80) b1 b2 b3 b4 b5 hlt h5,
      spec_formula_flip b0 b1 b2 b3 b4 b5 hb0, hbool]
  · intro h1
    have h1' : b5 ≠ 1 := h1
    refine ⟨(if b0 / 128 = 1 then (-1 : ℚ) else 1) *
        single_mag b5 ((b0 % 128) * 2 ^ 16 + b1 * 2 ^ 8 + b2), b0 / 128 == 1,
      to_single_val b0 b1 b2 b3 b4 b5 hb0 hb1 hb2 (by omega) hb5, ?_⟩
    rw [to_single_val (b0 ^^^ 0x80) b1 b2 b3 b4 b5 hlt hb1 hb2 (by omega) hb5, hmod, hbool]
    congr 2
    rw [hdiv]
    rcases Nat.lt_or_ge b0 128 with h | h
    · rw [show b0 / 128 = 0 from by omega]
      norm_num
    · rw [show b0 / 128 = 1 from by omega]
      norm_num

/-- **C8 amended witness**: the theorem applied to `[0,0,0,0,0,0x81]`,
the encoding of `1.0`. -/
theorem C8_witness :
    (WF [0, 0, 0, 0, 0, 129] ∧ ([0, 0, 0, 0, 0, 129] : List ℕ).getD 5 0 ≠ 0 ∧
      ([0, 0, 0, 0, 0, 129] : List ℕ).getD 5 0 ≠ 255) ∧
    ((∃ q : ℚ, ∃ b : Bool,
      real48.to_double (real48.mk6 [0, 0, 0, 0, 0, 129]) = .ok (.finite q b) ∧
      real48.to_double (real48.mk6 (flip_sign_bit [0, 0, 0, 0, 0, 129])) =
        .ok (.finite (-q) (!b))) ∧
    (∃ q : ℚ, ∃ b : Bool,
      real48.value (real48.mk6 [0, 0, 0, 0, 0, 129]) = .finite q b ∧
      real48.value (real48.mk6 (flip_sign_bit [0, 0, 0, 0, 0, 129])) = .finite (-q) (!b)) ∧
    (([0, 0, 0, 0, 0, 129] : List ℕ).getD 5 0 ≠ 1 → ∃ q : ℚ, ∃ b : Bool,
      real48.to_single (real48.mk6 [0, 0, 0, 0, 0, 129]) = .ok (.finite q b) ∧
      real48.to_single (real48.mk6 (flip_sign_bit [0, 0, 0, 0, 0, 129])) =
        .ok (.finite (-q) (!b)))) :=
  ⟨⟨by decide, by decide, by decide⟩,
    C8_sign_flip_amended [0, 0, 0, 0, 0, 129] (by decide) (by decide) (by decide)⟩
